import Mathlib

/-!
Verification of the streaming voice-pipeline orchestrator
(`voice_pipeline/pipeline.py`), the TTS text chunker
(`voice_pipeline/tts/coqui.py`) and the WebSocket session handler
(`voice_pipeline/transport/websocket.py`).

Text is modelled as `List Char` (Python `str`), audio payloads as
`List Nat` (Python `bytes`).  Python regular-expression searches are
embedded directly: leftmost position scan with greedy backtracking on
bounded quantifiers, `.` not matching a newline, `\s` being ASCII
whitespace.
-/

/-- ASCII whitespace, as matched by Python `\s` and stripped by `str.strip()`. -/
def isSpace (c : Char) : Bool :=
  c = ' ' || c = '\t' || c = '\n' || c = '\r' || c = '\x0b' || c = '\x0c'

/-- Sentence-terminator characters `.`, `!`, `?`. -/
def isPunct (c : Char) : Bool :=
  c = '.' || c = '!' || c = '?'

/-- Python regex `.` (no DOTALL): any character except a newline. -/
def dotChar (c : Char) : Bool := c ≠ '\n'

/-- Length of the longest prefix of `l` all of whose characters satisfy `p`
(the extent of a greedy character-class run in a regex). -/
def runLen (p : Char → Bool) : List Char → Nat
  | [] => 0
  | c :: cs => if p c then runLen p cs + 1 else 0

/-- `str.strip()` on the right only. -/
def pyStripRight (l : List Char) : List Char :=
  (l.reverse.dropWhile isSpace).reverse

/-- Python `str.strip()`: remove leading and trailing whitespace. -/
def pyStrip (l : List Char) : List Char :=
  pyStripRight (l.dropWhile isSpace)

/-- Python `str.split()`: whitespace-separated words.  Auxiliary with an
accumulator holding the current word reversed. -/
def pyWordsAux : List Char → List Char → List (List Char)
  | [], acc => if acc.isEmpty then [] else [acc.reverse]
  | c :: cs, acc =>
    if isSpace c then
      if acc.isEmpty then pyWordsAux cs [] else acc.reverse :: pyWordsAux cs []
    else pyWordsAux cs (c :: acc)

/-- Python `str.split()`: the whitespace-separated words of `l`. -/
def pyWords (l : List Char) : List (List Char) := pyWordsAux l []

/-- Join text units with a single space between them. -/
def joinWithSpace (units : List (List Char)) : List Char :=
  List.intercalate [' '] units

/-- A text with every whitespace run collapsed to a single space and
boundary whitespace removed: the whitespace normalization modulo which the
spec's chunker is claimed to reconstruct its input. -/
def collapseWs (l : List Char) : List Char := joinWithSpace (pyWords l)

/-! ### The TTS text chunker (`split_text_into_chunks`, coqui.py:18-58)

The Python code searches `remaining` with the regexes
`.{0,N}[.!?]\s+` (sentence split) and `.{0,N}\s+` (word split).
A Python regex match is found at the leftmost starting position at which
the pattern matches; at a given position the bounded greedy `.{0,N}` tries
the largest repetition count first.  `matchAtK` below decides a match with
exactly `k` dot-characters at the start of the list; `bestAt` scans `k`
descending (greedy); `search` scans start positions left to right and
returns `(start, length)` of the leftmost match, mirroring `re.search`. -/

/-- After the `k` dot characters of `.{k}[.!?]\s+`, the rest of the
pattern: one terminator then at least one whitespace character, greedy. -/
def sentenceTail (k : Nat) : List Char → Option Nat
  | [] => none
  | c :: rest =>
    if isPunct c then
      if runLen isSpace rest = 0 then none
      else some (k + 1 + runLen isSpace rest)
    else none

/-- Match `.{k}[.!?]\s+` (for `sentence` = true) or `.{k}\s+` (for
`sentence` = false) at the head of `cs`, with exactly `k` leading
dot-characters; returns the total match length. -/
def matchAtK (sentence : Bool) (cs : List Char) (k : Nat) : Option Nat :=
  if k ≤ cs.length then
    if (cs.take k).all dotChar then
      if sentence then sentenceTail k (cs.drop k)
      else
        if runLen isSpace (cs.drop k) = 0 then none
        else some (k + runLen isSpace (cs.drop k))
    else none
  else none

/-- Greedy scan of the bounded quantifier: try `k = K, K-1, …, 0`, first
success wins. -/
def bestAt (sentence : Bool) (cs : List Char) : Nat → Option Nat
  | 0 => matchAtK sentence cs 0
  | k + 1 =>
    match matchAtK sentence cs (k + 1) with
    | some r => some r
    | none => bestAt sentence cs k

/-- `re.search` for the two chunker patterns: leftmost starting position,
greedy repetition count; returns `(start, length)` of the match. -/
def reSearch (sentence : Bool) (N : Nat) : List Char → Option (Nat × Nat)
  | [] => none
  | c :: cs =>
    match bestAt sentence (c :: cs) N with
    | some len => some (0, len)
    | none =>
      match reSearch sentence N cs with
      | some pr => some (pr.1 + 1, pr.2)
      | none => none

/-- One `while len(remaining) > max_length` loop of
`split_text_into_chunks`, plus the trailing `if remaining:` append.
`fuel` bounds the number of iterations; every iteration shortens
`remaining` whenever `maxLength ≥ 1`, so `text.length + 1` fuel is never
exhausted there (for `maxLength = 0` the Python loop can diverge). -/
def splitLoop (maxLength : Nat) : Nat → List Char → List (List Char) → List (List Char)
  | 0, _, chunks => chunks
  | fuel + 1, remaining, chunks =>
    if remaining.length ≤ maxLength then
      if remaining.isEmpty then chunks else chunks ++ [remaining]
    else
      match reSearch true maxLength remaining with
      | some pr =>
        let chunk := pyStrip ((remaining.drop pr.1).take pr.2)
        let remaining1 := pyStrip (remaining.drop chunk.length)
        let chunks1 := if chunk.isEmpty then chunks else chunks ++ [chunk]
        splitLoop maxLength fuel remaining1 chunks1
      | none =>
        match reSearch false maxLength remaining with
        | some pr =>
          let chunk := pyStrip ((remaining.drop pr.1).take pr.2)
          let remaining1 := pyStrip (remaining.drop chunk.length)
          let chunks1 := if chunk.isEmpty then chunks else chunks ++ [chunk]
          splitLoop maxLength fuel remaining1 chunks1
        | none =>
          let chunk := remaining.take maxLength
          let remaining1 := pyStrip (remaining.drop maxLength)
          let chunks1 := if chunk.isEmpty then chunks else chunks ++ [chunk]
          splitLoop maxLength fuel remaining1 chunks1

/-- `MAX_CHUNK_LENGTH` (coqui.py:15). -/
def MAX_CHUNK_LENGTH : Nat := 250

/-- `split_text_into_chunks(text, max_length)` (coqui.py:18-58). -/
def split_text_into_chunks (text : List Char) (maxLength : Nat) : List (List Char) :=
  if text.length ≤ maxLength then [text]
  else splitLoop maxLength (text.length + 1) text []

/-! ### The pipeline orchestrator (`VoicePipeline.process_audio_chunk`, pipeline.py:41-153)

The three providers are modelled as the finite streams they yield for the
one turn: the STT stream as a list of transcripts, the LLM stream as a
list of response chunks, and the TTS provider as a function from a
sentence to the audio chunks its stream yields plus a flag saying whether
the stream then raises.  The asynchronous `interrupt()` call is modelled
by an oracle: the `i`-th read of `self._interrupted` performed by the run
returns the value `f i`; within one turn the flag can only be set, which
the concrete oracle `flagAt t` (false before external-interrupt time `t`,
true from then on) reflects.  The run is recorded as a trace holding the
yielded events together with the flag reads (`check`), the arrival of
each LLM chunk (`llmArrived`) and each call to
`tts_provider.stream_speech` (`ttsCall`). -/

/-- An element of the STT stream (a `TranscriptChunk` from the provider). -/
structure TranscriptIn where
  text : List Char
  final : Bool
deriving DecidableEq

/-- An element of the LLM stream (`llm_response` with `.text`, `.final`). -/
structure LLMChunkIn where
  text : List Char
  final : Bool
deriving DecidableEq

/-- An element of a TTS stream (an `AudioChunk` with `.audio`, `.final`). -/
structure AudioChunkIn where
  audio : List Nat
  final : Bool
deriving DecidableEq

/-- What one `stream_speech(sentence)` call does: the audio chunks it
yields, and whether it then raises an exception. -/
structure TTSResult where
  chunks : List AudioChunkIn
  fails : Bool
deriving DecidableEq

/-- One recorded step of a `process_audio_chunk` run: the events the
generator yields, plus markers for flag reads, LLM-chunk arrivals and
synthesis calls. -/
inductive TraceItem where
  | check : Bool → TraceItem
  | transcriptChunk : List Char → Bool → TraceItem
  | llmArrived : List Char → Bool → TraceItem
  | agentTextChunk : List Char → Bool → TraceItem
  | ttsCall : List Char → TraceItem
  | agentAudioChunk : List Nat → Bool → TraceItem
deriving DecidableEq

/-- Interrupt oracle: the flag reads false before the external
`interrupt()` arrives (at flag-read index `t`) and true from then on;
`none` means no interrupt during the turn. -/
def flagAt : Option Nat → Nat → Bool
  | none, _ => false
  | some k, i => decide (k ≤ i)

/-- Result of the audio-emission loop: trace, next flag-read index, and
whether the run returned (interrupted). -/
structure EmitOut where
  trace : List TraceItem
  idx : Nat
  stop : Bool

/-- Result of one pipeline stage: trace, text state (transcript or
buffer), next flag-read index, and whether the run returned. -/
structure StageOut where
  trace : List TraceItem
  buf : List Char
  idx : Nat
  stop : Bool

/-- `async for audio_chunk in self.tts_provider.stream_speech(...)`
(pipeline.py:117-124 and 144-148): before yielding each audio chunk the
flag is read; if set the generator returns at once. -/
def emitAudio (f : Nat → Bool) : List AudioChunkIn → Nat → EmitOut
  | [], i => ⟨[], i, false⟩
  | a :: rest, i =>
    if f i then ⟨[TraceItem.check true], i + 1, true⟩
    else
      let r := emitAudio f rest (i + 1)
      ⟨TraceItem.check false :: TraceItem.agentAudioChunk a.audio a.final :: r.trace,
        r.idx, r.stop⟩

/-- `SENTENCE_PATTERN = re.compile(r'([.!?]+\s+|\.{3}\s+)')`
(pipeline.py:16): a maximal run of `.!?` followed by at least one
whitespace character (the second alternative is subsumed by the first).
Match at the head of the list, returning the match length. -/
def sentenceMatchAt (cs : List Char) : Option Nat :=
  let p := runLen isPunct cs
  if p = 0 then none
  else
    let s := runLen isSpace (cs.drop p)
    if s = 0 then none else some (p + s)

/-- `SENTENCE_PATTERN.search(text_buffer).end()` (pipeline.py:104-107):
end index of the leftmost match, if any. -/
def sentenceSearchEnd : List Char → Option Nat
  | [] => none
  | c :: cs =>
    match sentenceMatchAt (c :: cs) with
    | some n => some n
    | none =>
      match sentenceSearchEnd cs with
      | some e => some (e + 1)
      | none => none

/-- The `while text_buffer:` sentence-extraction loop
(pipeline.py:102-131): extract each completed sentence, synthesize it,
emit its audio; a synthesis exception is swallowed (`except` at line 127).
Each iteration with a match drops at least two characters from the
buffer, so `buffer.length + 1` fuel is never exhausted. -/
def ttsLoop (f : Nat → Bool) (tts : List Char → TTSResult) :
    Nat → List Char → Nat → StageOut
  | 0, buffer, i => ⟨[], buffer, i, false⟩
  | fuel + 1, buffer, i =>
    if buffer.isEmpty then ⟨[], buffer, i, false⟩
    else
      match sentenceSearchEnd buffer with
      | none => ⟨[], buffer, i, false⟩
      | some e =>
        let sentence := pyStrip (buffer.take e)
        let buffer1 := buffer.drop e
        if sentence.isEmpty then ttsLoop f tts fuel buffer1 i
        else
          let r := emitAudio f (tts sentence).chunks i
          if r.stop then ⟨TraceItem.ttsCall sentence :: r.trace, buffer1, r.idx, true⟩
          else
            let r2 := ttsLoop f tts fuel buffer1 r.idx
            ⟨TraceItem.ttsCall sentence :: r.trace ++ r2.trace, r2.buf, r2.idx, r2.stop⟩

/-- `async for llm_response in self.llm_provider.stream_response(...)`
(pipeline.py:86-137): each chunk arrives, the flag is read, the text chunk
is yielded, the text is buffered, completed sentences are synthesized, and
the loop breaks when the chunk is final. -/
def llmLoop (f : Nat → Bool) (tts : List Char → TTSResult) :
    List LLMChunkIn → List Char → Nat → StageOut
  | [], buf, i => ⟨[], buf, i, false⟩
  | c :: rest, buf, i =>
    if f i then ⟨[TraceItem.llmArrived c.text c.final, TraceItem.check true], buf, i + 1, true⟩
    else
      let buf1 := if c.text.isEmpty then buf else buf ++ c.text
      let r := ttsLoop f tts (buf1.length + 1) buf1 (i + 1)
      let head := [TraceItem.llmArrived c.text c.final, TraceItem.check false,
        TraceItem.agentTextChunk c.text c.final]
      if r.stop then ⟨head ++ r.trace, r.buf, r.idx, true⟩
      else if c.final then ⟨head ++ r.trace, r.buf, r.idx, false⟩
      else
        let r2 := llmLoop f tts rest r.buf r.idx
        ⟨head ++ r.trace ++ r2.trace, r2.buf, r2.idx, r2.stop⟩

/-- `async for transcript in self.stt_provider.stream(...)`
(pipeline.py:62-71): the flag is read per transcript; the first transcript
with `final` set and non-empty text is yielded as the turn's transcript
and the loop breaks.  `buf` carries `transcript_text` (initially `""`). -/
def sttLoop (f : Nat → Bool) : List TranscriptIn → Nat → StageOut
  | [], i => ⟨[], [], i, false⟩
  | tr :: rest, i =>
    if f i then ⟨[TraceItem.check true], [], i + 1, true⟩
    else if tr.final && !tr.text.isEmpty then
      ⟨[TraceItem.check false, TraceItem.transcriptChunk tr.text true], tr.text, i + 1, false⟩
    else
      let r := sttLoop f rest (i + 1)
      ⟨TraceItem.check false :: r.trace, r.buf, r.idx, r.stop⟩

/-- The body of `process_audio_chunk` after the flag reset
(pipeline.py:57-153), for an arbitrary flag oracle `f`. -/
def pipelineRun (f : Nat → Bool) (stt : List TranscriptIn) (llm : List LLMChunkIn)
    (tts : List Char → TTSResult) : List TraceItem :=
  let r1 := sttLoop f stt 0
  if r1.stop then r1.trace
  else if (pyStrip r1.buf).isEmpty then r1.trace
  else if f r1.idx then r1.trace ++ [TraceItem.check true]
  else
    let r2 := llmLoop f tts llm [] (r1.idx + 1)
    let base := r1.trace ++ [TraceItem.check false] ++ r2.trace
    if r2.stop then base
    else if (pyStrip r2.buf).isEmpty then base
    else if f r2.idx then base ++ [TraceItem.check true]
    else
      let remaining := pyStrip r2.buf
      let r3 := emitAudio f (tts remaining).chunks (r2.idx + 1)
      base ++ [TraceItem.check false, TraceItem.ttsCall remaining] ++ r3.trace

/-- The mutable flag state of a `VoicePipeline` (`self._interrupted`). -/
structure PipelineState where
  interrupted : Bool
deriving DecidableEq

/-- `VoicePipeline.interrupt` (pipeline.py:34-39): sets the flag (the
cancellation of the in-flight TTS task is subsumed by the flag reads in
the trace model). -/
def interrupt (s : PipelineState) : PipelineState := { s with interrupted := true }

/-- `VoicePipeline.process_audio_chunk(audio_chunk)` (pipeline.py:41-153):
line 55 resets `self._interrupted = False` before any provider stream is
consumed; afterwards the `i`-th flag read returns the reset value or-ed
with the external-interrupt oracle `flagAt t i`. -/
def process_audio_chunk (self : PipelineState) (t : Option Nat)
    (stt : List TranscriptIn) (llm : List LLMChunkIn)
    (tts : List Char → TTSResult) : List TraceItem :=
  let self1 : PipelineState := { self with interrupted := false }
  pipelineRun (fun i => self1.interrupted || flagAt t i) stt llm tts

/-! ### The WebSocket session handler (`VoiceWebSocketServer.handle_session`, websocket.py:33-145)

One inbound message step of the session loop.  The background turn task
is modelled by an optional handle with a fresh identifier; whether the
task reports itself done at the two points where the handler consults
`processing_task.done()` is environment input (`TaskEnv`), since task
completion is asynchronous.  Outbound effects are recorded as an ordered
action list. -/

/-- Session mode (`idle`, `listening`, `speaking`). -/
inductive Mode where
  | idle
  | listening
  | speaking
deriving DecidableEq

/-- Handle to a background turn-processing task. -/
structure TaskRef where
  id : Nat
deriving DecidableEq

/-- Per-connection session state (`handle_session` locals, websocket.py:47-51). -/
structure SessionState where
  mode : Mode
  audioBuffer : List Nat
  isRecording : Bool
  processingTask : Option TaskRef
  nextTaskId : Nat
deriving DecidableEq

/-- Inbound control messages (websocket.py:62-130). -/
inductive SessionMsg where
  | streamStart
  | audioChunk : Option (List Nat) → SessionMsg
  | streamEnd
  | interruptMsg
  | disconnect
deriving DecidableEq

/-- Outbound effects of one message step, in order. -/
inductive SessionAction where
  | interruptPipeline
  | cancelTask : Nat → SessionAction
  | sendModeChange : Mode → SessionAction
  | startTask : Nat → List Nat → SessionAction
  | logDrop
deriving DecidableEq

/-- The two asynchronous readings of `processing_task.done()` during a
`voice_audio_stream_end` step: at the cancel guard (websocket.py:89) and
at the start guard after the cancellation grace sleep (websocket.py:107).
The first reading is also used by the `interrupt` handler (line 124). -/
structure TaskEnv where
  doneAtFirstCheck : Bool
  doneAfterCancel : Bool
deriving DecidableEq

/-- One inbound-message step of `handle_session` (websocket.py:62-130). -/
def sessionStep (s : SessionState) (msg : SessionMsg) (env : TaskEnv) :
    SessionState × List SessionAction :=
  match msg with
  | SessionMsg.streamStart =>
    let acts :=
      match s.mode, s.processingTask with
      | Mode.speaking, some tk => [SessionAction.interruptPipeline, SessionAction.cancelTask tk.id]
      | _, _ => []
    ({ s with audioBuffer := [], isRecording := true, mode := Mode.listening },
      acts ++ [SessionAction.sendModeChange Mode.listening])
  | SessionMsg.audioChunk a =>
    match a with
    | some bs =>
      if s.isRecording && !bs.isEmpty then
        ({ s with audioBuffer := s.audioBuffer ++ bs }, [])
      else (s, [])
    | none => (s, [])
  | SessionMsg.streamEnd =>
    let s1 := { s with isRecording := false }
    if s1.audioBuffer.isEmpty then
      ({ s1 with mode := Mode.idle }, [SessionAction.sendModeChange Mode.idle])
    else
      let cancelActs :=
        match s1.processingTask with
        | some tk =>
          if env.doneAtFirstCheck then []
          else [SessionAction.interruptPipeline, SessionAction.cancelTask tk.id]
        | none => []
      let audioToProcess := s1.audioBuffer
      let s2 := { s1 with mode := Mode.idle, audioBuffer := [] }
      let canStart :=
        match s2.processingTask with
        | none => true
        | some _ => env.doneAfterCancel
      if canStart then
        ({ s2 with processingTask := some ⟨s2.nextTaskId⟩, nextTaskId := s2.nextTaskId + 1 },
          cancelActs ++ [SessionAction.sendModeChange Mode.idle,
            SessionAction.startTask s2.nextTaskId audioToProcess])
      else
        (s2, cancelActs ++ [SessionAction.sendModeChange Mode.idle, SessionAction.logDrop])
  | SessionMsg.interruptMsg =>
    let cancelActs :=
      match s.processingTask with
      | some tk => if env.doneAtFirstCheck then [] else [SessionAction.cancelTask tk.id]
      | none => []
    ({ s with mode := Mode.listening },
      SessionAction.interruptPipeline :: cancelActs ++ [SessionAction.sendModeChange Mode.listening])
  | SessionMsg.disconnect => (s, [])

/-! ### Helper observers on traces -/

/-- Events actually yielded by the generator (transcript, agent text,
agent audio) as opposed to trace markers. -/
def isEmittedEvent : TraceItem → Bool
  | TraceItem.transcriptChunk _ _ => true
  | TraceItem.agentTextChunk _ _ => true
  | TraceItem.agentAudioChunk _ _ => true
  | _ => false

/-- Agent output events: LLM text chunks and synthesized audio chunks. -/
def isAgentOutput : TraceItem → Bool
  | TraceItem.agentTextChunk _ _ => true
  | TraceItem.agentAudioChunk _ _ => true
  | _ => false

/-- Synthesized audio events. -/
def isAudioEvent : TraceItem → Bool
  | TraceItem.agentAudioChunk _ _ => true
  | _ => false

/-- Speech-synthesis call markers. -/
def isTtsCallItem : TraceItem → Bool
  | TraceItem.ttsCall _ => true
  | _ => false

/-- The yielded events of a run. -/
def emittedEvents (tr : List TraceItem) : List TraceItem := tr.filter isEmittedEvent

/-- Index of the first occurrence of `x` in `l` (length of `l` if absent). -/
def idxOfItem (x : TraceItem) : List TraceItem → Nat
  | [] => 0
  | y :: ys => if y = x then 0 else idxOfItem x ys + 1

/-! ### Concrete provider streams for the scenario claims -/

/-- A one-transcript STT stream producing the final transcript `hello`. -/
def sttHello : List TranscriptIn := [⟨"hello".toList, true⟩]

/-- TTS provider used in scenarios: one audio chunk per call, carrying the
length of the synthesized text, marked final. -/
def ttsByLen (s : List Char) : TTSResult := ⟨[⟨[s.length], true⟩], false⟩

/-- The LLM stream of claim C1: chunks `"Hi"`, `" there."` and a final
empty chunk. -/
def llmHiThere : List LLMChunkIn :=
  [⟨"Hi".toList, false⟩, ⟨" there.".toList, false⟩, ⟨[], true⟩]

/-- The trace of the C1 scenario run. -/
def traceHiThere : List TraceItem :=
  process_audio_chunk ⟨false⟩ none sttHello llmHiThere ttsByLen

/-! ### Claim C1 -/

/-- Claim C1, counterexample.  In the scenario (non-empty final transcript
`hello`; LLM chunks `"Hi"`, `" there."`, `""` final) exactly one synthesis
call is made and its text is `Hi there.`, but — contrary to the claim —
it is not triggered before the final LLM chunk arrives: the `ttsCall`
marker occurs after the `llmArrived` marker of the final chunk, because
`SENTENCE_PATTERN` requires whitespace after the terminator and
`"Hi there."` ends without one, so synthesis only happens in the
end-of-turn flush. -/
theorem C1_counterexample :
    traceHiThere.filter isTtsCallItem = [TraceItem.ttsCall "Hi there.".toList] ∧
    ¬ idxOfItem (TraceItem.ttsCall "Hi there.".toList) traceHiThere <
        idxOfItem (TraceItem.llmArrived [] true) traceHiThere := by
  decide

/-- Claim C1, amended.  Given the non-empty final transcript `hello`, when
the LLM stream yields exactly the chunks `"Hi"`, `" there."`, `""` (final),
`process_audio_chunk` makes exactly one speech-synthesis call, with text
`Hi there.`, and that call is triggered by the end-of-turn flush after the
final (empty) LLM chunk arrives. -/
theorem C1_amended :
    traceHiThere.filter isTtsCallItem = [TraceItem.ttsCall "Hi there.".toList] ∧
    idxOfItem (TraceItem.llmArrived [] true) traceHiThere <
        idxOfItem (TraceItem.ttsCall "Hi there.".toList) traceHiThere := by
  decide

/-! ### Claim C10 -/

/-- Claim C10.  `process_audio_chunk` resets the interruption flag to
`False` (pipeline.py:55) before consuming any provider stream, so two runs
that differ only in whether `interrupt()` was called before the run began
— i.e. only in the initial `PipelineState` — produce the same event
sequence. -/
theorem C10_pre_run_interrupt_no_effect (s : PipelineState) (t : Option Nat)
    (stt : List TranscriptIn) (llm : List LLMChunkIn) (tts : List Char → TTSResult) :
    process_audio_chunk (interrupt s) t stt llm tts =
      process_audio_chunk s t stt llm tts := rfl

/-! ### Claim C8 -/

/-- Claim C8.  For every text shorter than the maximum unit length,
`split_text_into_chunks` returns exactly one unit equal to the input
(coqui.py:24-25). -/
theorem C8_short_text (text : List Char) (maxLength : Nat)
    (h : text.length < maxLength) :
    split_text_into_chunks text maxLength = [text] := by
  unfold split_text_into_chunks
  rw [if_pos (Nat.le_of_lt h)]

/-- Claim C8, witness: `hello` with the default maximum length. -/
theorem C8_witness : split_text_into_chunks "hello".toList MAX_CHUNK_LENGTH =
    ["hello".toList] :=
  C8_short_text "hello".toList MAX_CHUNK_LENGTH (by decide)

/-! ### Claim C6 -/

/-- Claim C6 (code bug).  Concatenating the units returned by
`split_text_into_chunks` does not reproduce the input: on
`"ab cd ef. x"` with `max_length = 5` the sentence regex matches at
offset 3, but the code advances `remaining` by `len(chunk)` from
offset 0 (coqui.py:35), so the units are `["cd ef.", "ef. x"]` — the
characters `ab` are dropped (no unit contains an `a`) and `ef` is
duplicated. -/
theorem C6_failing_input_eval :
    split_text_into_chunks "ab cd ef. x".toList 5 =
      ["cd ef.".toList, "ef. x".toList] ∧
    joinWithSpace (split_text_into_chunks "ab cd ef. x".toList 5) ≠
      collapseWs "ab cd ef. x".toList ∧
    'a' ∈ "ab cd ef. x".toList ∧
    ∀ c ∈ split_text_into_chunks "ab cd ef. x".toList 5, 'a' ∉ c := by
  decide

/-! ### Claim C7 -/

/-- Claim C7, counterexample.  On `"ab de. ghijk"` with `max_length = 5`
every whitespace-separated word has length at most 5, yet the returned
unit `"ab de."` has length 6 > 5: the sentence pattern `.{0,5}[.!?]\s+`
admits up to `max_length` characters before the terminator, so a
sentence unit may exceed `max_length` by one even when no single word
does. -/
theorem C7_counterexample :
    (pyWords "ab de. ghijk".toList).all (fun w => w.length ≤ 5) = true ∧
    "ab de.".toList ∈ split_text_into_chunks "ab de. ghijk".toList 5 ∧
    5 < "ab de.".toList.length := by
  decide

/-! ### Claim C9 -/

/-- Claim C9, counterexample.  An empty or whitespace-only input text of
length at most `max_length` is returned whole as a single unit
(coqui.py:24-25), not as an empty sequence: `split_text_into_chunks`
yields `[""]` on `""` and `[" "]` on `" "`. -/
theorem C9_counterexample :
    split_text_into_chunks [] 5 = [[]] ∧
    split_text_into_chunks [' '] 5 = [[' ']] ∧
    split_text_into_chunks [' '] 5 ≠ [] := by
  decide

/-! ### Claim C3 -/

/-- A session state with an active turn task and a non-empty recording
buffer, as when `voice_audio_stream_end` arrives mid-turn. -/
def sessionWithActiveTask : SessionState :=
  { mode := Mode.speaking, audioBuffer := [7], isRecording := true,
    processingTask := some ⟨0⟩, nextTaskId := 1 }

/-- Claim C3, counterexample.  A `voice_audio_stream_end` that arrives
while a turn task is still active (not done at the cancel guard) is not a
no-op: the handler interrupts and cancels the active task
(websocket.py:89-96) and, when the task has completed cancellation by the
start guard, starts a new turn task from this very message
(websocket.py:107-113). -/
theorem C3_counterexample :
    sessionWithActiveTask.processingTask = some ⟨0⟩ ∧
    (sessionStep sessionWithActiveTask SessionMsg.streamEnd ⟨false, true⟩).2 =
      [SessionAction.interruptPipeline, SessionAction.cancelTask 0,
        SessionAction.sendModeChange Mode.idle, SessionAction.startTask 1 [7]] := by
  decide

/-! ### Claim C4 -/

/-- STT stream yielding first a final transcript with empty text, then a
final transcript `hi`. -/
def sttEmptyThenHi : List TranscriptIn := [⟨[], true⟩, ⟨"hi".toList, true⟩]

/-- A one-chunk final LLM stream answering `ok`. -/
def llmOk : List LLMChunkIn := [⟨"ok".toList, true⟩]

/-- Claim C4, counterexample.  The STT stream yields a transcript marked
final whose text is empty, yet the turn does not terminate with no further
events: the loop condition `transcript.final and transcript.text`
(pipeline.py:67) skips empty final transcripts, so the later final
transcript `hi` is taken and agent text and audio events are emitted. -/
theorem C4_counterexample :
    (⟨[], true⟩ : TranscriptIn) ∈ sttEmptyThenHi ∧
    TraceItem.agentTextChunk "ok".toList true ∈
      process_audio_chunk ⟨false⟩ none sttEmptyThenHi llmOk ttsByLen ∧
    emittedEvents (process_audio_chunk ⟨false⟩ none sttEmptyThenHi llmOk ttsByLen) ≠ [] := by
  decide

/-! ### Claim C5, scenario inputs -/

/-- The LLM stream of the C5 scenario: one final chunk holding three
sentences (the third completed only by the end-of-turn flush). -/
def llmThreeSentences : List LLMChunkIn := [⟨"One. Two. Three.".toList, true⟩]

/-- TTS provider of the C5 scenario: synthesis of the second sentence
yields nothing and raises; the others yield one final audio chunk. -/
def ttsSecondFails (s : List Char) : TTSResult :=
  if s = "One.".toList then ⟨[⟨[1], true⟩], false⟩
  else if s = "Two.".toList then ⟨[], true⟩
  else ⟨[⟨[3], true⟩], false⟩

/-- The same provider with every failure suppressed. -/
def ttsSecondFailsNoRaise (s : List Char) : TTSResult :=
  ⟨(ttsSecondFails s).chunks, false⟩

/-! ### Claim C5 -/

/-- The sentence-extraction loop never reads the `fails` component of a
TTS result: the `except` clause at pipeline.py:127-128 only logs. -/
theorem ttsLoop_congr (f : Nat → Bool) (tts1 tts2 : List Char → TTSResult)
    (h : ∀ x, (tts1 x).chunks = (tts2 x).chunks) :
    ∀ fuel buffer i, ttsLoop f tts1 fuel buffer i = ttsLoop f tts2 fuel buffer i := by
  intro fuel
  induction fuel with
  | zero => intro buffer i; rfl
  | succ n ih =>
    intro buffer i
    by_cases hb : buffer.isEmpty
    · simp [ttsLoop, hb]
    · cases hse : sentenceSearchEnd buffer with
      | none => simp [ttsLoop, hb, hse]
      | some e =>
        by_cases hs : (pyStrip (buffer.take e)).isEmpty
        · simp [ttsLoop, hb, hse, hs, ih]
        · simp [ttsLoop, hb, hse, hs, h, ih]

/-- The LLM loop is likewise insensitive to TTS failure flags. -/
theorem llmLoop_congr (f : Nat → Bool) (tts1 tts2 : List Char → TTSResult)
    (h : ∀ x, (tts1 x).chunks = (tts2 x).chunks) :
    ∀ llm buf i, llmLoop f tts1 llm buf i = llmLoop f tts2 llm buf i := by
  intro llm
  induction llm with
  | nil => intro buf i; rfl
  | cons c rest ih =>
    intro buf i
    by_cases hf : f i
    · simp [llmLoop, hf]
    · simp [llmLoop, hf, ttsLoop_congr f tts1 tts2 h, ih]

/-- A whole run is insensitive to TTS failure flags. -/
theorem pipelineRun_congr (f : Nat → Bool) (stt : List TranscriptIn)
    (llm : List LLMChunkIn) (tts1 tts2 : List Char → TTSResult)
    (h : ∀ x, (tts1 x).chunks = (tts2 x).chunks) :
    pipelineRun f stt llm tts1 = pipelineRun f stt llm tts2 := by
  simp [pipelineRun, llmLoop_congr f tts1 tts2 h, h]

/-- Claim C5.  A synthesis failure is swallowed and processing continues.
First part: the event sequence of a run does not depend on which
synthesis calls fail (only on the audio chunks each call yields before
failing) — so a failing sentence aborts nothing and produces no terminal
error event.  Second part, the spec scenario: with three sentences whose
second synthesis raises after yielding nothing, synthesis is still
attempted for all three sentences and audio events are emitted for
sentences one and three. -/
theorem C5_synthesis_failure_swallowed :
    (∀ (s : PipelineState) (t : Option Nat) (stt : List TranscriptIn)
        (llm : List LLMChunkIn) (tts1 tts2 : List Char → TTSResult),
      (∀ x, (tts1 x).chunks = (tts2 x).chunks) →
      process_audio_chunk s t stt llm tts1 = process_audio_chunk s t stt llm tts2) ∧
    (process_audio_chunk ⟨false⟩ none sttHello llmThreeSentences ttsSecondFails).filter
        isTtsCallItem =
      [TraceItem.ttsCall "One.".toList, TraceItem.ttsCall "Two.".toList,
        TraceItem.ttsCall "Three.".toList] ∧
    (process_audio_chunk ⟨false⟩ none sttHello llmThreeSentences ttsSecondFails).filter
        isAudioEvent =
      [TraceItem.agentAudioChunk [1] true, TraceItem.agentAudioChunk [3] true] := by
  refine ⟨?_, by decide, by decide⟩
  intro s t stt llm tts1 tts2 h
  exact pipelineRun_congr _ stt llm tts1 tts2 h

/-- Claim C5, witness: the run with the failing second sentence equals the
run with the failure suppressed. -/
theorem C5_witness :
    process_audio_chunk ⟨false⟩ none sttHello llmThreeSentences ttsSecondFails =
      process_audio_chunk ⟨false⟩ none sttHello llmThreeSentences ttsSecondFailsNoRaise :=
  C5_synthesis_failure_swallowed.1 ⟨false⟩ none sttHello llmThreeSentences
    ttsSecondFails ttsSecondFailsNoRaise (fun _ => rfl)

/-! ### Claim C2 -/

/-- No `check true` item occurs in the trace. -/
def noCheckTrue (tr : List TraceItem) : Prop :=
  ∀ x ∈ tr, x ≠ TraceItem.check true

/-- Well-formedness of a stage result: if the stage returned early
(`stop`), its trace ends with the `check true` that caused the return and
holds no other true flag read; otherwise it holds no true flag read. -/
def endsOk (tr : List TraceItem) (stop : Bool) : Prop :=
  (stop = true → ∃ tr0, tr = tr0 ++ [TraceItem.check true] ∧ noCheckTrue tr0) ∧
  (stop = false → noCheckTrue tr)

theorem noCheckTrue_nil : noCheckTrue [] := by
  intro x hx
  cases hx

theorem noCheckTrue_cons {x : TraceItem} {tr : List TraceItem}
    (hx : x ≠ TraceItem.check true) (h : noCheckTrue tr) : noCheckTrue (x :: tr) := by
  intro y hy
  rcases List.mem_cons.mp hy with rfl | hy
  · exact hx
  · exact h y hy

theorem noCheckTrue_append {t1 t2 : List TraceItem}
    (h1 : noCheckTrue t1) (h2 : noCheckTrue t2) : noCheckTrue (t1 ++ t2) := by
  intro y hy
  rcases List.mem_append.mp hy with hy | hy
  · exact h1 y hy
  · exact h2 y hy

theorem endsOk_prepend {pre tr : List TraceItem} {stop : Bool}
    (hp : noCheckTrue pre) (h : endsOk tr stop) : endsOk (pre ++ tr) stop := by
  refine ⟨fun hs => ?_, fun hs => ?_⟩
  · obtain ⟨tr0, rfl, h0⟩ := h.1 hs
    exact ⟨pre ++ tr0, by simp, noCheckTrue_append hp h0⟩
  · exact noCheckTrue_append hp (h.2 hs)

theorem endsOk_stop : endsOk [TraceItem.check true] true := by
  refine ⟨fun _ => ⟨[], rfl, noCheckTrue_nil⟩, (fun h => nomatch h)⟩

theorem emitAudio_endsOk (f : Nat → Bool) :
    ∀ (l : List AudioChunkIn) (i : Nat),
      endsOk (emitAudio f l i).trace (emitAudio f l i).stop := by
  intro l
  induction l with
  | nil =>
    intro i
    exact ⟨(fun h => nomatch h), fun _ => noCheckTrue_nil⟩
  | cons a rest ih =>
    intro i
    by_cases hf : f i
    · simp only [emitAudio, hf, if_true]
      exact endsOk_stop
    · simp only [emitAudio, hf, if_false]
      exact endsOk_prepend
        (noCheckTrue_cons (by simp) (noCheckTrue_cons (by simp) noCheckTrue_nil)) (ih (i + 1))

theorem ttsLoop_endsOk (f : Nat → Bool) (tts : List Char → TTSResult) :
    ∀ (fuel : Nat) (buffer : List Char) (i : Nat),
      endsOk (ttsLoop f tts fuel buffer i).trace (ttsLoop f tts fuel buffer i).stop := by
  intro fuel
  induction fuel with
  | zero =>
    intro buffer i
    exact ⟨(fun h => nomatch h), fun _ => noCheckTrue_nil⟩
  | succ n ih =>
    intro buffer i
    by_cases hb : buffer.isEmpty
    · simp only [ttsLoop, hb, if_true]
      exact ⟨(fun h => nomatch h), fun _ => noCheckTrue_nil⟩
    · simp only [ttsLoop, hb, if_false]
      cases hse : sentenceSearchEnd buffer with
      | none => exact ⟨(fun h => nomatch h), fun _ => noCheckTrue_nil⟩
      | some e =>
        by_cases hs : (pyStrip (buffer.take e)).isEmpty
        · simp only [hs, if_true]
          exact ih _ _
        · simp only [hs, if_false]
          have he := emitAudio_endsOk f (tts (pyStrip (buffer.take e))).chunks i
          by_cases hstop : (emitAudio f (tts (pyStrip (buffer.take e))).chunks i).stop
          · simp only [hstop, if_true]
            obtain ⟨tr0, htr, h0⟩ := he.1 hstop
            refine ⟨fun _ => ⟨TraceItem.ttsCall _ :: tr0, by rw [htr]; rfl,
              noCheckTrue_cons (by simp) h0⟩, (fun h => nomatch h)⟩
          · simp only [hstop, if_false]
            have hno := he.2 (by simpa using hstop)
            have := ih (buffer.drop e) (emitAudio f (tts (pyStrip (buffer.take e))).chunks i).idx
            have hpre : noCheckTrue (TraceItem.ttsCall (pyStrip (buffer.take e)) ::
                (emitAudio f (tts (pyStrip (buffer.take e))).chunks i).trace) :=
              noCheckTrue_cons (by simp) hno
            simpa using endsOk_prepend hpre this

theorem llmLoop_endsOk (f : Nat → Bool) (tts : List Char → TTSResult) :
    ∀ (llm : List LLMChunkIn) (buf : List Char) (i : Nat),
      endsOk (llmLoop f tts llm buf i).trace (llmLoop f tts llm buf i).stop := by
  intro llm
  induction llm with
  | nil =>
    intro buf i
    exact ⟨(fun h => nomatch h), fun _ => noCheckTrue_nil⟩
  | cons c rest ih =>
    intro buf i
    by_cases hf : f i
    · simp only [llmLoop, hf, if_true]
      refine ⟨fun _ => ⟨[TraceItem.llmArrived c.text c.final], rfl,
        noCheckTrue_cons (by simp) noCheckTrue_nil⟩, (fun h => nomatch h)⟩
    · simp only [llmLoop, hf, if_false]
      set buf1 := if c.text.isEmpty then buf else buf ++ c.text with hbuf1
      have ht := ttsLoop_endsOk f tts (buf1.length + 1) buf1 (i + 1)
      have hhead : noCheckTrue [TraceItem.llmArrived c.text c.final, TraceItem.check false,
          TraceItem.agentTextChunk c.text c.final] :=
        noCheckTrue_cons (by simp) (noCheckTrue_cons (by simp)
          (noCheckTrue_cons (by simp) noCheckTrue_nil))
      by_cases hstop : (ttsLoop f tts (buf1.length + 1) buf1 (i + 1)).stop
      · simp only [hstop, if_true]
        have ht1 : endsOk (ttsLoop f tts (buf1.length + 1) buf1 (i + 1)).trace true := by
          rw [← hstop]; exact ht
        simpa using endsOk_prepend hhead ht1
      · simp only [hstop, if_false]
        have hno := ht.2 (by simpa using hstop)
        by_cases hfin : c.final
        · rw [if_pos hfin]
          exact ⟨(fun h => nomatch h), fun _ => noCheckTrue_append hhead hno⟩
        · rw [if_neg hfin]
          have := ih (ttsLoop f tts (buf1.length + 1) buf1 (i + 1)).buf
            (ttsLoop f tts (buf1.length + 1) buf1 (i + 1)).idx
          simpa [List.append_assoc] using endsOk_prepend (noCheckTrue_append hhead hno) this

theorem sttLoop_endsOk (f : Nat → Bool) :
    ∀ (stt : List TranscriptIn) (i : Nat),
      endsOk (sttLoop f stt i).trace (sttLoop f stt i).stop := by
  intro stt
  induction stt with
  | nil =>
    intro i
    exact ⟨(fun h => nomatch h), fun _ => noCheckTrue_nil⟩
  | cons tr rest ih =>
    intro i
    by_cases hf : f i
    · simp only [sttLoop, hf, if_true]
      exact endsOk_stop
    · simp only [sttLoop, hf, if_false]
      by_cases hsel : tr.final && !tr.text.isEmpty
      · simp only [hsel, if_true]
        refine ⟨(fun h => nomatch h), fun _ =>
          noCheckTrue_cons (by simp) (noCheckTrue_cons (by simp) noCheckTrue_nil)⟩
      · simp only [hsel, if_false]
        exact endsOk_prepend (noCheckTrue_cons (by simp) noCheckTrue_nil) (ih (i + 1))

/-- Every true flag read is the last item of the trace. -/
def checkTrueEnds (tr : List TraceItem) : Prop :=
  ∀ i, tr.get? i = some (TraceItem.check true) → i + 1 = tr.length

theorem checkTrueEnds_of_noCheckTrue {tr : List TraceItem} (h : noCheckTrue tr) :
    checkTrueEnds tr := by
  intro i hi
  exact absurd rfl (h _ (List.get?_mem hi))

theorem checkTrueEnds_append_single {tr0 : List TraceItem} (h : noCheckTrue tr0) :
    checkTrueEnds (tr0 ++ [TraceItem.check true]) := by
  intro i hi
  rcases Nat.lt_or_ge i tr0.length with hlt | hge
  · rw [List.get?_append hlt] at hi
    exact absurd rfl (h _ (List.get?_mem hi))
  · have hilen : i < tr0.length + 1 := by
      have := (List.get?_eq_some.mp hi).1
      simpa using this
    have : i = tr0.length := Nat.le_antisymm (Nat.lt_succ_iff.mp hilen) hge
    simp [this]

theorem checkTrueEnds_of_endsOk {tr : List TraceItem} {stop : Bool}
    (h : endsOk tr stop) : checkTrueEnds tr := by
  cases stop with
  | false => exact checkTrueEnds_of_noCheckTrue (h.2 rfl)
  | true =>
    obtain ⟨tr0, rfl, h0⟩ := h.1 rfl
    exact checkTrueEnds_append_single h0

theorem pipelineRun_checkTrueEnds (f : Nat → Bool) (stt : List TranscriptIn)
    (llm : List LLMChunkIn) (tts : List Char → TTSResult) :
    checkTrueEnds (pipelineRun f stt llm tts) := by
  unfold pipelineRun
  have h1 := sttLoop_endsOk f stt 0
  by_cases hs1 : (sttLoop f stt 0).stop
  · simp only [hs1, if_true]
    exact checkTrueEnds_of_endsOk (hs1 ▸ h1)
  · have hno1 : noCheckTrue (sttLoop f stt 0).trace := h1.2 (by simpa using hs1)
    simp only [hs1, if_false]
    by_cases hstrip : (pyStrip (sttLoop f stt 0).buf).isEmpty
    · simp only [hstrip, if_true]
      exact checkTrueEnds_of_noCheckTrue hno1
    · simp only [hstrip, if_false]
      by_cases hf1 : f (sttLoop f stt 0).idx
      · simp only [hf1, if_true]
        exact checkTrueEnds_append_single hno1
      · simp only [hf1, if_false]
        have h2 := llmLoop_endsOk f tts llm [] ((sttLoop f stt 0).idx + 1)
        have hpre : noCheckTrue ((sttLoop f stt 0).trace ++ [TraceItem.check false]) :=
          noCheckTrue_append hno1 (noCheckTrue_cons (by simp) noCheckTrue_nil)
        by_cases hs2 : (llmLoop f tts llm [] ((sttLoop f stt 0).idx + 1)).stop
        · simp only [hs2, if_true]
          have h2a : endsOk (llmLoop f tts llm [] ((sttLoop f stt 0).idx + 1)).trace true := by
            rw [← hs2]; exact h2
          exact checkTrueEnds_of_endsOk (endsOk_prepend hpre h2a)
        · have hno2 := h2.2 (by simpa using hs2)
          have hbase : noCheckTrue ((sttLoop f stt 0).trace ++ [TraceItem.check false] ++
              (llmLoop f tts llm [] ((sttLoop f stt 0).idx + 1)).trace) :=
            noCheckTrue_append hpre hno2
          simp only [hs2, if_false]
          by_cases hstrip2 : (pyStrip (llmLoop f tts llm [] ((sttLoop f stt 0).idx + 1)).buf).isEmpty
          · simp only [hstrip2, if_true]
            exact checkTrueEnds_of_noCheckTrue hbase
          · simp only [hstrip2, if_false]
            by_cases hf2 : f (llmLoop f tts llm [] ((sttLoop f stt 0).idx + 1)).idx
            · simp only [hf2, if_true]
              exact checkTrueEnds_append_single hbase
            · simp only [hf2, if_false]
              have h3 := emitAudio_endsOk f
                (tts (pyStrip (llmLoop f tts llm [] ((sttLoop f stt 0).idx + 1)).buf)).chunks
                ((llmLoop f tts llm [] ((sttLoop f stt 0).idx + 1)).idx + 1)
              have hpre3 : noCheckTrue ((sttLoop f stt 0).trace ++ [TraceItem.check false] ++
                  (llmLoop f tts llm [] ((sttLoop f stt 0).idx + 1)).trace ++
                  [TraceItem.check false,
                    TraceItem.ttsCall (pyStrip (llmLoop f tts llm [] ((sttLoop f stt 0).idx + 1)).buf)]) :=
                noCheckTrue_append hbase (noCheckTrue_cons (by simp)
                  (noCheckTrue_cons (by simp) noCheckTrue_nil))
              have hfinal := endsOk_prepend hpre3 h3
              exact checkTrueEnds_of_endsOk (by simpa [List.append_assoc] using hfinal)

/-- Claim C2.  For every turn run by `process_audio_chunk` and every
interruption oracle, once the interruption flag is observed set — in
particular once `interrupt()` sets it after synthesis of sentence `k` has
begun — the event sequence ends at that very flag check: a true flag read
is always the last trace item, so no `AgentAudioChunk` (or any other)
event is emitted afterwards for sentences `k+1..n` of the turn. -/
theorem C2_flag_check_ends_sequence (s : PipelineState) (t : Option Nat)
    (stt : List TranscriptIn) (llm : List LLMChunkIn) (tts : List Char → TTSResult)
    (i : Nat)
    (h : (process_audio_chunk s t stt llm tts).get? i = some (TraceItem.check true)) :
    i + 1 = (process_audio_chunk s t stt llm tts).length :=
  pipelineRun_checkTrueEnds _ stt llm tts i h

/-- Claim C2, witness: interrupting after synthesis of sentence one has
begun (flag set from read 4 on) ends the trace at the next flag check. -/
theorem C2_witness :
    10 + 1 = (process_audio_chunk ⟨false⟩ (some 4) sttHello llmThreeSentences
      ttsSecondFails).length :=
  C2_flag_check_ends_sequence ⟨false⟩ (some 4) sttHello llmThreeSentences
    ttsSecondFails 10 (by decide)

/-- Does an action list start a new background turn task? -/
def startsTask (acts : List SessionAction) : Bool :=
  acts.any (fun a => match a with | SessionAction.startTask _ _ => true | _ => false)

/-- Claim C3, amended.  At most one turn task is active at any time: a
step starts a new task only when the session holds no task handle or the
held task is observed done at the post-cancellation guard
(websocket.py:107).  A `voice_audio_stream_end` arriving while a turn
task is still active first interrupts and cancels that task; if the task
is still not done after the cancellation grace sleep, the message is
dropped (logged) with no new turn and the task handle unchanged, but if
the cancellation has completed by the guard, a new turn task is started
from this very message. -/
theorem C3_amended :
    (∀ (s : SessionState) (msg : SessionMsg) (env : TaskEnv),
      startsTask (sessionStep s msg env).2 = true →
      s.processingTask = none ∨ env.doneAfterCancel = true) ∧
    (∀ (s : SessionState) (tk : TaskRef) (env : TaskEnv),
      s.processingTask = some tk → env.doneAtFirstCheck = false →
      env.doneAfterCancel = false → ¬ s.audioBuffer.isEmpty →
      (sessionStep s SessionMsg.streamEnd env).2 =
        [SessionAction.interruptPipeline, SessionAction.cancelTask tk.id,
          SessionAction.sendModeChange Mode.idle, SessionAction.logDrop] ∧
      ((sessionStep s SessionMsg.streamEnd env).1).processingTask = some tk) ∧
    (∀ (s : SessionState) (tk : TaskRef) (env : TaskEnv),
      s.processingTask = some tk → env.doneAtFirstCheck = false →
      env.doneAfterCancel = true → ¬ s.audioBuffer.isEmpty →
      (sessionStep s SessionMsg.streamEnd env).2 =
        [SessionAction.interruptPipeline, SessionAction.cancelTask tk.id,
          SessionAction.sendModeChange Mode.idle,
          SessionAction.startTask s.nextTaskId s.audioBuffer]) := by
  refine ⟨?_, ?_, ?_⟩
  · intro s msg env h
    cases msg with
    | streamStart =>
      exfalso
      revert h
      cases hm : s.mode <;> cases hp : s.processingTask <;> simp [sessionStep, hm, hp, startsTask]
    | audioChunk a =>
      exfalso
      revert h
      cases a with
      | none => simp [sessionStep, startsTask]
      | some bs =>
        by_cases hr : s.isRecording && !bs.isEmpty <;> simp [sessionStep, hr, startsTask]
    | streamEnd =>
      by_cases hb : s.audioBuffer.isEmpty
      · exfalso
        revert h
        simp [sessionStep, hb, startsTask]
      · cases ht : s.processingTask with
        | none => exact Or.inl rfl
        | some tk =>
          by_cases hd : env.doneAfterCancel
          · exact Or.inr hd
          · exfalso
            revert h
            by_cases hd1 : env.doneAtFirstCheck <;>
              simp [sessionStep, hb, ht, hd, hd1, startsTask]
    | interruptMsg =>
      exfalso
      revert h
      cases hp : s.processingTask <;> by_cases hd1 : env.doneAtFirstCheck <;>
        simp [sessionStep, hp, hd1, startsTask]
    | disconnect =>
      exfalso
      revert h
      simp [sessionStep, startsTask]
  · intro s tk env h1 h2 h3 h4
    constructor <;> simp [sessionStep, h1, h2, h3, h4]
  · intro s tk env h1 h2 h3 h4
    simp [sessionStep, h1, h2, h3, h4]

/-- Claim C3, witness: the invariant and both `stream_end` behaviors at
concrete states. -/
theorem C3_witness :
    (sessionWithActiveTask.processingTask = none ∨ (⟨false, true⟩ : TaskEnv).doneAfterCancel = true) ∧
    (sessionStep sessionWithActiveTask SessionMsg.streamEnd ⟨false, false⟩).2 =
      [SessionAction.interruptPipeline, SessionAction.cancelTask 0,
        SessionAction.sendModeChange Mode.idle, SessionAction.logDrop] ∧
    (sessionStep sessionWithActiveTask SessionMsg.streamEnd ⟨false, true⟩).2 =
      [SessionAction.interruptPipeline, SessionAction.cancelTask 0,
        SessionAction.sendModeChange Mode.idle, SessionAction.startTask 1 [7]] :=
  ⟨C3_amended.1 sessionWithActiveTask SessionMsg.streamEnd ⟨false, true⟩ (by decide),
    (C3_amended.2.1 sessionWithActiveTask ⟨0⟩ ⟨false, false⟩ rfl rfl rfl (by decide)).1,
    C3_amended.2.2 sessionWithActiveTask ⟨0⟩ ⟨false, true⟩ rfl rfl rfl (by decide)⟩

/-- The STT stage never emits agent text or audio events. -/
theorem sttLoop_no_agent (f : Nat → Bool) :
    ∀ (stt : List TranscriptIn) (i : Nat),
      ∀ e ∈ (sttLoop f stt i).trace, isAgentOutput e = false := by
  intro stt
  induction stt with
  | nil => intro i e he; cases he
  | cons tr rest ih =>
    intro i e he
    by_cases hf : f i
    · simp only [sttLoop, hf, if_true] at he
      rcases List.mem_cons.mp he with rfl | he
      · rfl
      · cases he
    · simp only [sttLoop, hf, if_false] at he
      by_cases hsel : tr.final && !tr.text.isEmpty
      · simp only [hsel, if_true] at he
        rcases List.mem_cons.mp he with rfl | he
        · rfl
        · rcases List.mem_cons.mp he with rfl | he
          · rfl
          · cases he
      · simp only [hsel, if_false] at he
        rcases List.mem_cons.mp he with rfl | he
        · rfl
        · exact ih (i + 1) e he

/-- If no STT transcript is both final and non-empty, the STT stage
selects no transcript and yields no event. -/
theorem sttLoop_skip_all (f : Nat → Bool) :
    ∀ (stt : List TranscriptIn) (i : Nat),
      (∀ tr ∈ stt, ¬(tr.final = true ∧ tr.text ≠ [])) →
      (sttLoop f stt i).buf = [] ∧
      ∀ e ∈ (sttLoop f stt i).trace, isEmittedEvent e = false := by
  intro stt
  induction stt with
  | nil =>
    intro i _
    exact ⟨rfl, fun e he => by cases he⟩
  | cons tr rest ih =>
    intro i h
    have htr := h tr (by simp)
    have hsel : (tr.final && !tr.text.isEmpty) = false := by
      rcases Bool.eq_false_or_eq_true tr.final with hfin | hfin
      · have ht : tr.text = [] := by
          by_contra hne
          exact htr ⟨hfin, hne⟩
        simp [ht]
      · simp [hfin]
    have hrest := ih (i + 1) (fun x hx => h x (List.mem_cons_of_mem _ hx))
    by_cases hf : f i
    · refine ⟨by simp [sttLoop, hf], ?_⟩
      intro e he
      simp only [sttLoop, hf, if_true] at he
      rcases List.mem_cons.mp he with rfl | he
      · rfl
      · cases he
    · refine ⟨by simp [sttLoop, hf, hsel, hrest.1], ?_⟩
      intro e he
      simp only [sttLoop, hf, if_false, hsel] at he
      rcases List.mem_cons.mp he with rfl | he
      · rfl
      · exact hrest.2 e he

/-- If the transcripts before `tr` are all skipped and `tr` is final with
non-empty text, the STT stage returns either no transcript (when
interrupted first) or exactly `tr`'s text. -/
theorem sttLoop_first_selected (f : Nat → Bool) (tr : TranscriptIn)
    (post : List TranscriptIn) (htrf : tr.final = true) (htrt : tr.text ≠ []) :
    ∀ (pre : List TranscriptIn) (i : Nat),
      (∀ p ∈ pre, ¬(p.final = true ∧ p.text ≠ [])) →
      (sttLoop f (pre ++ tr :: post) i).buf = [] ∨
      (sttLoop f (pre ++ tr :: post) i).buf = tr.text := by
  intro pre
  induction pre with
  | nil =>
    intro i _
    by_cases hf : f i
    · left
      simp [sttLoop, hf]
    · right
      have hsel : (tr.final && !tr.text.isEmpty) = true := by
        simp [htrf, htrt]
      simp [sttLoop, hf, hsel]
  | cons p rest ih =>
    intro i h
    have hp := h p (by simp)
    have hsel : (p.final && !p.text.isEmpty) = false := by
      rcases Bool.eq_false_or_eq_true p.final with hfin | hfin
      · have hpt : p.text = [] := by
          by_contra hne
          exact hp ⟨hfin, hne⟩
        simp [hpt]
      · simp [hfin]
    by_cases hf : f i
    · left
      simp [sttLoop, hf]
    · have := ih (i + 1) (fun x hx => h x (List.mem_cons_of_mem _ hx))
      simpa [sttLoop, hf, hsel] using this

/-- When the STT stage produces no usable transcript, the run returns the
STT trace alone (pipeline.py:73-75). -/
theorem pipelineRun_stt_only (f : Nat → Bool) (stt : List TranscriptIn)
    (llm : List LLMChunkIn) (tts : List Char → TTSResult)
    (h : (pyStrip (sttLoop f stt 0).buf).isEmpty) :
    pipelineRun f stt llm tts = (sttLoop f stt 0).trace := by
  unfold pipelineRun
  by_cases hs : (sttLoop f stt 0).stop
  · simp [hs]
  · simp [hs, h]

/-- `sessionStep` on `voice_audio_stream_end` always sets the mode to
`idle` (websocket.py:99, 117). -/
theorem sessionStep_streamEnd_idle (s : SessionState) (env : TaskEnv) :
    ((sessionStep s SessionMsg.streamEnd env).1).mode = Mode.idle := by
  unfold sessionStep
  by_cases hb : s.audioBuffer.isEmpty
  · simp [hb]
  · simp only [hb]
    cases ht : s.processingTask <;> by_cases hd : env.doneAfterCancel <;>
      by_cases hd1 : env.doneAtFirstCheck <;> simp [ht, hd, hd1]

/-- Claim C4, amended.  If the STT stream yields no transcript that is
both final and non-empty, `process_audio_chunk` emits no events at all;
if the first such transcript is whitespace-only, the sequence terminates
with no agent text or audio events (at most the transcript event is
emitted); and on `voice_audio_stream_end` the session mode is set to
`idle`.  (A final transcript with empty text is skipped by
pipeline.py:67, not taken as the turn's transcript.) -/
theorem C4_amended :
    (∀ (s : PipelineState) (t : Option Nat) (stt : List TranscriptIn)
        (llm : List LLMChunkIn) (tts : List Char → TTSResult),
      (∀ tr ∈ stt, ¬(tr.final = true ∧ tr.text ≠ [])) →
      emittedEvents (process_audio_chunk s t stt llm tts) = []) ∧
    (∀ (s : PipelineState) (t : Option Nat) (pre : List TranscriptIn)
        (tr : TranscriptIn) (post : List TranscriptIn)
        (llm : List LLMChunkIn) (tts : List Char → TTSResult),
      (∀ p ∈ pre, ¬(p.final = true ∧ p.text ≠ [])) →
      tr.final = true → tr.text ≠ [] → pyStrip tr.text = [] →
      (process_audio_chunk s t (pre ++ tr :: post) llm tts).filter isAgentOutput = []) ∧
    (∀ (s : SessionState) (env : TaskEnv),
      ((sessionStep s SessionMsg.streamEnd env).1).mode = Mode.idle) := by
  refine ⟨?_, ?_, fun s env => sessionStep_streamEnd_idle s env⟩
  · intro s t stt llm tts h
    have hskip := sttLoop_skip_all (fun i => false || flagAt t i) stt 0 h
    have hrun := pipelineRun_stt_only (fun i => false || flagAt t i) stt llm tts
      (by rw [hskip.1]; rfl)
    show emittedEvents (pipelineRun (fun i => false || flagAt t i) stt llm tts) = []
    rw [hrun]
    refine List.filter_eq_nil.mpr ?_
    intro e he
    simp [hskip.2 e he]
  · intro s t pre tr post llm tts h htrf htrt hstrip
    have hbuf := sttLoop_first_selected (fun i => false || flagAt t i) tr post htrf htrt pre 0 h
    have hempty : (pyStrip (sttLoop (fun i => false || flagAt t i) (pre ++ tr :: post) 0).buf).isEmpty := by
      rcases hbuf with hbuf | hbuf <;> rw [hbuf]
      · rfl
      · simp [hstrip]
    have hrun := pipelineRun_stt_only (fun i => false || flagAt t i) (pre ++ tr :: post) llm tts hempty
    show (pipelineRun (fun i => false || flagAt t i) (pre ++ tr :: post) llm tts).filter isAgentOutput = []
    rw [hrun]
    refine List.filter_eq_nil.mpr ?_
    intro e he
    simp [sttLoop_no_agent (fun i => false || flagAt t i) (pre ++ tr :: post) 0 e he]

/-- Claim C4, witness: a stream with no final transcript emits nothing; a
whitespace-only final transcript yields no agent events; `stream_end` on a
concrete session sets the mode to `idle`. -/
theorem C4_witness :
    emittedEvents (process_audio_chunk ⟨false⟩ none
      [⟨"x".toList, false⟩, ⟨[], true⟩] llmOk ttsByLen) = [] ∧
    (process_audio_chunk ⟨false⟩ none [⟨"  ".toList, true⟩] llmOk ttsByLen).filter
      isAgentOutput = [] ∧
    ((sessionStep sessionWithActiveTask SessionMsg.streamEnd ⟨false, true⟩).1).mode = Mode.idle :=
  ⟨C4_amended.1 ⟨false⟩ none [⟨"x".toList, false⟩, ⟨[], true⟩] llmOk ttsByLen (by decide),
    C4_amended.2.1 ⟨false⟩ none [] ⟨"  ".toList, true⟩ [] llmOk ttsByLen
      (fun p hp => by cases hp) rfl (by decide) (by decide),
    C4_amended.2.2 sessionWithActiveTask ⟨false, true⟩⟩

/-! ### Chunk-length bound for the chunker (claims C7, C9) -/

theorem dropWhile_length_le (p : Char → Bool) :
    ∀ l : List Char, (l.dropWhile p).length ≤ l.length := by
  intro l
  induction l with
  | nil => exact Nat.le_refl 0
  | cons c cs ih =>
    by_cases hc : p c
    · simp only [List.dropWhile_cons_of_pos hc]
      exact Nat.le_succ_of_le ih
    · simp [List.dropWhile_cons_of_neg hc]

theorem pyStripRight_length_le (l : List Char) : (pyStripRight l).length ≤ l.length := by
  unfold pyStripRight
  calc (l.reverse.dropWhile isSpace).reverse.length
      = (l.reverse.dropWhile isSpace).length := List.length_reverse _
    _ ≤ l.reverse.length := dropWhile_length_le isSpace l.reverse
    _ = l.length := List.length_reverse l

theorem pyStrip_length_le (l : List Char) : (pyStrip l).length ≤ l.length := by
  unfold pyStrip
  exact Nat.le_trans (pyStripRight_length_le _) (dropWhile_length_le isSpace l)

theorem dropWhile_eq_nil_of_all {p : Char → Bool} {l : List Char}
    (h : l.all p = true) : l.dropWhile p = [] := by
  induction l with
  | nil => rfl
  | cons c cs ih =>
    simp only [List.all_cons, Bool.and_eq_true] at h
    simp [List.dropWhile_cons_of_pos h.1, ih h.2]

theorem dropWhile_append_of_all {p : Char → Bool} {S B : List Char}
    (h : S.all p = true) : (S ++ B).dropWhile p = B.dropWhile p := by
  rw [List.dropWhile_append, dropWhile_eq_nil_of_all h]
  rfl

theorem pyStripRight_append_spaces {A S : List Char} (h : S.all isSpace = true) :
    pyStripRight (A ++ S) = pyStripRight A := by
  unfold pyStripRight
  rw [List.reverse_append, dropWhile_append_of_all (by rwa [List.all_reverse])]

theorem pyStrip_append_spaces {A S : List Char} (h : S.all isSpace = true) :
    pyStrip (A ++ S) = pyStrip A := by
  unfold pyStrip
  rw [List.dropWhile_append]
  by_cases hA : (A.dropWhile isSpace).isEmpty
  · rw [if_pos hA, dropWhile_eq_nil_of_all h]
    have : A.dropWhile isSpace = [] := by
      cases hAe : A.dropWhile isSpace
      · rfl
      · rw [hAe] at hA; cases hA
    rw [this]
  · rw [if_neg hA]
    exact pyStripRight_append_spaces h

theorem pyStrip_eq_nil_of_all {l : List Char} (h : l.all isSpace = true) :
    pyStrip l = [] := by
  unfold pyStrip
  rw [dropWhile_eq_nil_of_all h]
  rfl

theorem take_runLen_all (p : Char → Bool) : ∀ l : List Char, (l.take (runLen p l)).all p := by
  intro l
  induction l with
  | nil => rfl
  | cons c cs ih =>
    by_cases hc : p c
    · simp [runLen, hc, ih]
    · simp [runLen, hc]

theorem all_of_subset {p : Char → Bool} {l m : List Char} (hs : l ⊆ m)
    (h : m.all p = true) : l.all p = true := by
  rw [List.all_eq_true] at h ⊢
  exact fun x hx => h x (hs hx)

/-- Structure of a sentence-pattern match with `k` leading dot characters:
the matched prefix strips to at most `k + 1` characters (the dot window
plus the terminator; the trailing whitespace is stripped). -/
theorem matchAtK_true_strip_len {cs : List Char} {k r N : Nat} (hk : k ≤ N)
    (h : matchAtK true cs k = some r) :
    (pyStrip (cs.take r)).length ≤ N + 1 := by
  unfold matchAtK at h
  by_cases hlen : k ≤ cs.length
  · rw [if_pos hlen] at h
    by_cases hall : (cs.take k).all dotChar
    · rw [if_pos hall] at h
      simp only [if_true] at h
      cases hdrop : cs.drop k with
      | nil => rw [hdrop] at h; cases h
      | cons c rest =>
        rw [hdrop] at h
        simp only [sentenceTail] at h
        by_cases hpunct : isPunct c
        · rw [if_pos hpunct] at h
          by_cases hrun : runLen isSpace rest = 0
          · rw [if_pos hrun] at h; cases h
          · rw [if_neg hrun] at h
            have hr : r = k + 1 + runLen isSpace rest := (Option.some.inj h).symm
            subst hr
            have htake : cs.take (k + 1 + runLen isSpace rest) =
                (cs.take k ++ [c]) ++ (cs.drop (k + 1)).take (runLen isSpace rest) := by
              rw [List.take_add, List.take_add]
              congr 1
              · congr 1
                rw [hdrop]
                rfl
            have hdrop1 : cs.drop (k + 1) = rest := by
              rw [← List.drop_drop, hdrop]
              rfl
            rw [htake, hdrop1]
            have hS : (rest.take (runLen isSpace rest)).all isSpace = true :=
              take_runLen_all isSpace rest
            rw [pyStrip_append_spaces hS]
            calc (pyStrip (cs.take k ++ [c])).length
                ≤ (cs.take k ++ [c]).length := pyStrip_length_le _
              _ = (cs.take k).length + 1 := by simp
              _ ≤ k + 1 := Nat.succ_le_succ (List.length_take_le k cs)
              _ ≤ N + 1 := Nat.succ_le_succ hk
        · rw [if_neg hpunct] at h; cases h
    · rw [if_neg hall] at h; cases h
  · rw [if_neg hlen] at h; cases h

/-- Structure of a word-pattern match with `k` leading dot characters:
the matched prefix strips to at most `k` characters. -/
theorem matchAtK_false_strip_len {cs : List Char} {k r N : Nat} (hk : k ≤ N)
    (h : matchAtK false cs k = some r) :
    (pyStrip (cs.take r)).length ≤ N := by
  unfold matchAtK at h
  by_cases hlen : k ≤ cs.length
  · rw [if_pos hlen] at h
    by_cases hall : (cs.take k).all dotChar
    · rw [if_pos hall] at h
      simp only [Bool.false_eq_true, if_false] at h
      by_cases hrun : runLen isSpace (cs.drop k) = 0
      · rw [if_pos hrun] at h; cases h
      · rw [if_neg hrun] at h
        have hr : r = k + runLen isSpace (cs.drop k) := (Option.some.inj h).symm
        subst hr
        rw [List.take_add]
        have hS : ((cs.drop k).take (runLen isSpace (cs.drop k))).all isSpace = true :=
          take_runLen_all isSpace (cs.drop k)
        rw [pyStrip_append_spaces hS]
        calc (pyStrip (cs.take k)).length
            ≤ (cs.take k).length := pyStrip_length_le _
          _ ≤ k := List.length_take_le k cs
          _ ≤ N := hk
    · rw [if_neg hall] at h; cases h
  · rw [if_neg hlen] at h; cases h

/-- A greedy-scan success comes from some repetition count `k ≤ K`. -/
theorem bestAt_spec {sentence : Bool} {cs : List Char} :
    ∀ {K r : Nat}, bestAt sentence cs K = some r →
      ∃ k, k ≤ K ∧ matchAtK sentence cs k = some r := by
  intro K
  induction K with
  | zero => intro r h; exact ⟨0, Nat.le_refl 0, h⟩
  | succ n ihK =>
    intro r h
    simp only [bestAt] at h
    cases hm : matchAtK sentence cs (n + 1) with
    | some r2 =>
      rw [hm] at h
      exact ⟨n + 1, Nat.le_refl _, hm.trans h⟩
    | none =>
      rw [hm] at h
      obtain ⟨k, hk, hmk⟩ := ihK h
      exact ⟨k, Nat.le_succ_of_le hk, hmk⟩

/-- A `re.search` success is a match at its start position with some
repetition count `k ≤ N`. -/
theorem reSearch_spec {sentence : Bool} {N : Nat} :
    ∀ {cs : List Char} {p len : Nat}, reSearch sentence N cs = some (p, len) →
      ∃ k, k ≤ N ∧ matchAtK sentence (cs.drop p) k = some len := by
  intro cs
  induction cs with
  | nil => intro p len h; cases h
  | cons c cs ihc =>
    intro p len h
    simp only [reSearch] at h
    cases hb : bestAt sentence (c :: cs) N with
    | some l2 =>
      rw [hb] at h
      simp only [Option.some.injEq, Prod.mk.injEq] at h
      obtain ⟨hp0, hlen⟩ := h
      subst hp0; subst hlen
      simpa using bestAt_spec hb
    | none =>
      rw [hb] at h
      cases hs : reSearch sentence N cs with
      | some pr =>
        rw [hs] at h
        obtain ⟨k, hk, hmk⟩ := @ihc pr.1 pr.2 (by rw [hs])
        simp only [Option.some.injEq, Prod.mk.injEq] at h
        obtain ⟨hp1, hlen⟩ := h
        subst hp1; subst hlen
        exact ⟨k, hk, by simpa [List.drop_succ_cons] using hmk⟩
      | none => rw [hs] at h; cases h

theorem mem_append_singleton {c x : List Char} {chunks : List (List Char)}
    (h : c ∈ chunks ++ [x]) : c ∈ chunks ∨ c = x := by
  rcases List.mem_append.mp h with h | h
  · exact Or.inl h
  · exact Or.inr (List.mem_singleton.mp h)

/-- Every unit the chunker loop ever appends has length at most
`maxLength + 1`. -/
theorem splitLoop_bound (N : Nat) :
    ∀ (fuel : Nat) (remaining : List Char) (chunks : List (List Char)),
      (∀ c ∈ chunks, c.length ≤ N + 1) →
      ∀ c ∈ splitLoop N fuel remaining chunks, c.length ≤ N + 1 := by
  intro fuel
  induction fuel with
  | zero => intro remaining chunks hc c hcm; exact hc c hcm
  | succ n ih =>
    intro remaining chunks hc c hcm
    simp only [splitLoop] at hcm
    by_cases hlen : remaining.length ≤ N
    · rw [if_pos hlen] at hcm
      by_cases hre : remaining.isEmpty
      · rw [if_pos hre] at hcm
        exact hc c hcm
      · rw [if_neg hre] at hcm
        rcases mem_append_singleton hcm with hm | rfl
        · exact hc c hm
        · exact Nat.le_trans hlen (Nat.le_succ N)
    · rw [if_neg hlen] at hcm
      cases hsearch : reSearch true N remaining with
      | some pr =>
        rw [hsearch] at hcm
        refine ih _ _ ?_ c hcm
        intro c1 hc1
        by_cases hck : (pyStrip ((remaining.drop pr.1).take pr.2)).isEmpty
        · rw [if_pos hck] at hc1
          exact hc c1 hc1
        · rw [if_neg hck] at hc1
          rcases mem_append_singleton hc1 with hm | rfl
          · exact hc c1 hm
          · obtain ⟨k, hk, hmk⟩ := reSearch_spec hsearch
            exact matchAtK_true_strip_len hk hmk
      | none =>
        rw [hsearch] at hcm
        cases hsearch2 : reSearch false N remaining with
        | some pr =>
          rw [hsearch2] at hcm
          refine ih _ _ ?_ c hcm
          intro c1 hc1
          by_cases hck : (pyStrip ((remaining.drop pr.1).take pr.2)).isEmpty
          · rw [if_pos hck] at hc1
            exact hc c1 hc1
          · rw [if_neg hck] at hc1
            rcases mem_append_singleton hc1 with hm | rfl
            · exact hc c1 hm
            · obtain ⟨k, hk, hmk⟩ := reSearch_spec hsearch2
              exact Nat.le_trans (matchAtK_false_strip_len hk hmk) (Nat.le_succ N)
        | none =>
          rw [hsearch2] at hcm
          refine ih _ _ ?_ c hcm
          intro c1 hc1
          by_cases hck : (remaining.take N).isEmpty
          · rw [if_pos hck] at hc1
            exact hc c1 hc1
          · rw [if_neg hck] at hc1
            rcases mem_append_singleton hc1 with hm | rfl
            · exact hc c1 hm
            · exact Nat.le_trans (List.length_take_le N remaining) (Nat.le_succ N)

/-- Claim C7, amended.  No unit returned by `split_text_into_chunks`
exceeds `maxLength + 1`: a sentence-boundary unit may carry its
terminator at position `maxLength` and so exceed `maxLength` by exactly
one character (even when every single word fits), all other units fit in
`maxLength`. -/
theorem C7_amended (text : List Char) (maxLength : Nat) (c : List Char)
    (hc : c ∈ split_text_into_chunks text maxLength) :
    c.length ≤ maxLength + 1 := by
  unfold split_text_into_chunks at hc
  by_cases hlen : text.length ≤ maxLength
  · rw [if_pos hlen] at hc
    rcases List.mem_singleton.mp hc with rfl
    exact Nat.le_trans hlen (Nat.le_succ maxLength)
  · rw [if_neg hlen] at hc
    exact splitLoop_bound maxLength (text.length + 1) text [] (fun c1 hc1 => by cases hc1) c hc

/-- Claim C7, amended, witness: the oversized sentence unit of the
counterexample still fits in `maxLength + 1`. -/
theorem C7_witness : ("ab de.".toList).length ≤ 5 + 1 :=
  C7_amended "ab de. ghijk".toList 5 "ab de.".toList (by decide)

theorem space_not_punct {c : Char} (h : isSpace c = true) : isPunct c = false := by
  simp only [isSpace, Bool.or_eq_true, decide_eq_true_eq] at h
  rcases h with ((((h | h) | h) | h) | h) | h <;> subst h <;> decide

theorem matchAtK_true_none_of_all_space {cs : List Char} (h : cs.all isSpace = true)
    (k : Nat) : matchAtK true cs k = none := by
  unfold matchAtK
  by_cases hlen : k ≤ cs.length
  · rw [if_pos hlen]
    by_cases hall : (cs.take k).all dotChar
    · rw [if_pos hall]
      simp only [if_true]
      cases hdrop : cs.drop k with
      | nil => rfl
      | cons c rest =>
        simp only [sentenceTail]
        have hcmem : c ∈ cs := (List.drop_subset k cs) (hdrop ▸ List.mem_cons_self c rest)
        have hcs : isSpace c = true := (List.all_eq_true.mp h) c hcmem
        rw [if_neg (by simp [space_not_punct hcs])]
    · rw [if_neg hall]
  · rw [if_neg hlen]

theorem bestAt_true_none_of_all_space {cs : List Char} (h : cs.all isSpace = true) :
    ∀ K, bestAt true cs K = none := by
  intro K
  induction K with
  | zero => exact matchAtK_true_none_of_all_space h 0
  | succ n ihK => simp [bestAt, matchAtK_true_none_of_all_space h (n + 1), ihK]

theorem reSearch_true_none_of_all_space {N : Nat} :
    ∀ {cs : List Char}, cs.all isSpace = true → reSearch true N cs = none := by
  intro cs
  induction cs with
  | nil => intro _; rfl
  | cons c rest ih =>
    intro h
    simp only [List.all_cons, Bool.and_eq_true] at h
    have hb : bestAt true (c :: rest) N = none :=
      bestAt_true_none_of_all_space (by simp [h.1, h.2]) N
    simp [reSearch, hb, ih h.2]

theorem matchAtK_false_zero_some {c : Char} {rest : List Char} (hc : isSpace c = true) :
    matchAtK false (c :: rest) 0 = some (runLen isSpace (c :: rest)) := by
  unfold matchAtK
  have hrun : runLen isSpace (c :: rest) = runLen isSpace rest + 1 := by
    simp [runLen, hc]
  simp [hrun]

theorem bestAt_false_some {c : Char} (rest : List Char) (hc : isSpace c = true) :
    ∀ K, ∃ r, bestAt false (c :: rest) K = some r := by
  intro K
  induction K with
  | zero => exact ⟨_, matchAtK_false_zero_some hc⟩
  | succ n ihK =>
    simp only [bestAt]
    cases hm : matchAtK false (c :: rest) (n + 1) with
    | some r => exact ⟨r, rfl⟩
    | none => exact ihK

theorem reSearch_false_space_head {c : Char} {rest : List Char}
    (hc : isSpace c = true) (N : Nat) :
    ∃ len, reSearch false N (c :: rest) = some (0, len) := by
  obtain ⟨r, hr⟩ := bestAt_false_some rest hc N
  exact ⟨r, by simp [reSearch, hr]⟩

theorem splitLoop_nil (N : Nat) : ∀ fuel, splitLoop N fuel [] [] = [] := by
  intro fuel
  cases fuel with
  | zero => rfl
  | succ n => simp [splitLoop]

theorem splitLoop_word_step (N fuel : Nat) (remaining : List Char)
    (chunks : List (List Char)) (pr : Nat × Nat) (hlen : ¬ remaining.length ≤ N)
    (hs1 : reSearch true N remaining = none) (hs2 : reSearch false N remaining = some pr) :
    splitLoop N (fuel + 1) remaining chunks =
      splitLoop N fuel
        (pyStrip (remaining.drop (pyStrip ((remaining.drop pr.1).take pr.2)).length))
        (if (pyStrip ((remaining.drop pr.1).take pr.2)).isEmpty then chunks
          else chunks ++ [pyStrip ((remaining.drop pr.1).take pr.2)]) := by
  simp [splitLoop, hlen, hs1, hs2]

/-- Claim C9, amended.  An empty or whitespace-only input text yields no
unit only when it is longer than `maxLength` (the word-boundary match
then strips to nothing and the stripped remainder is empty); when its
length is at most `maxLength`, the early return at coqui.py:24-25 yields
the whole text as one unit. -/
theorem C9_amended (text : List Char) (maxLength : Nat) (h : text.all isSpace = true) :
    (maxLength < text.length → split_text_into_chunks text maxLength = []) ∧
    (text.length ≤ maxLength → split_text_into_chunks text maxLength = [text]) := by
  constructor
  · intro hlt
    unfold split_text_into_chunks
    rw [if_neg (Nat.not_le_of_lt hlt)]
    cases htext : text with
    | nil =>
      subst htext
      simp at hlt
    | cons c rest =>
      subst htext
      have hc : isSpace c = true := (List.all_eq_true.mp h) c (List.mem_cons_self c rest)
      obtain ⟨len, hsearch⟩ := reSearch_false_space_head hc maxLength
      have hchunk : pyStrip (((c :: rest).drop (0, len).1).take (0, len).2) = [] :=
        pyStrip_eq_nil_of_all (all_of_subset (List.take_subset _ _) (by simpa using h))
      rw [splitLoop_word_step maxLength (c :: rest).length (c :: rest) [] (0, len)
        (Nat.not_le_of_lt hlt) (reSearch_true_none_of_all_space h) hsearch]
      rw [hchunk]
      simp only [List.length_nil, List.drop_zero, List.isEmpty_nil, if_true]
      rw [pyStrip_eq_nil_of_all h]
      exact splitLoop_nil maxLength _
  · intro hle
    unfold split_text_into_chunks
    rw [if_pos hle]

/-- Claim C9, amended, witness: three spaces with maximum lengths 2 and 5. -/
theorem C9_witness :
    split_text_into_chunks "   ".toList 2 = [] ∧
    split_text_into_chunks "   ".toList 5 = ["   ".toList] :=
  ⟨(C9_amended "   ".toList 2 (by decide)).1 (by decide),
    (C9_amended "   ".toList 5 (by decide)).2 (by decide)⟩
